import Mathlib

/-!
Verification of the reflex observability-pipeline node handlers.

Each definition below is a shallow embedding of a function from the
TypeScript sources (`apps/pipeline/src/...`).  Database tables are
modelled as in-memory lists of rows, the per-delivery transaction is
modelled by explicit state passing, and the SHA-256 primitive (an
external crypto capability) is a function parameter `sha`.  The JS
expression `!prev?.hash` is modelled faithfully: it is true when the
prior row is absent *or* its `hash` field is the empty string (JS
falsiness).  Sequential executions of the handlers are modelled; the
`namespace` identifier is spelled `ns` because `namespace` is a Lean
keyword.
-/

namespace Reflex

/-! ## utils.ts -/

/-- Character class for the `\s` of `String.prototype.replace(/\s+/g, " ")`. -/
def isJsWhitespace (c : Char) : Bool :=
  c = ' ' || c = '\t' || c = '\n' || c = '\r' || c = '\x0c' || c = '\x0b'

/-- `html.replace(/\s+/g, " ")`: collapse every run of whitespace to one space.
`prevWs` records whether the previous character was part of a whitespace run. -/
def collapseWsAux : Bool → List Char → List Char
  | _, [] => []
  | prevWs, c :: cs =>
    if isJsWhitespace c then
      if prevWs then collapseWsAux true cs else ' ' :: collapseWsAux true cs
    else c :: collapseWsAux false cs

/-- `.replace(/>\s+</g, "><")` applied after whitespace collapsing, where every
whitespace run is a single space, so the pattern instances are exactly `> <`. -/
def removeGtLtSpace : List Char → List Char
  | '>' :: ' ' :: '<' :: cs => '>' :: '<' :: removeGtLtSpace cs
  | c :: cs => c :: removeGtLtSpace cs
  | [] => []

/-- `.trim()`: drop leading and trailing whitespace. -/
def trimChars (l : List Char) : List Char :=
  ((l.dropWhile isJsWhitespace).reverse.dropWhile isJsWhitespace).reverse

/-- `normalizeHtml` from utils.ts:
`html.replace(/\s+/g, " ").replace(/>\s+</g, "><").trim()`. -/
def normalizeHtml (html : String) : String :=
  String.mk (trimChars (removeGtLtSpace (collapseWsAux false html.data)))

/-! ## enrichNode.ts (`WebContentEnrichNode`) -/

namespace WebContentEnrichNode

/-- The `data` blob stored in `core.entity_state`:
`JSON.stringify({ hash, normalized })`. -/
structure SnapData where
  hash : String
  normalized : String
deriving DecidableEq

/-- Key of `core.entity_state`: `(namespace, entity_type, entity_id)`. -/
abbrev EntityKey := String × String × String

/-- The `core.entity_state` table. -/
abbrev EntityState := List (EntityKey × SnapData)

/-- `SELECT data FROM core.entity_state WHERE namespace=$1 AND entity_type=... AND entity_id=$2`. -/
def lookupEntity (st : EntityState) (k : EntityKey) : Option SnapData :=
  (st.find? fun p => decide (p.1 = k)).map (fun p => p.2)

/-- `INSERT INTO core.entity_state ... ON CONFLICT ... DO UPDATE SET data=EXCLUDED.data`. -/
def upsertEntity (st : EntityState) (k : EntityKey) (d : SnapData) : EntityState :=
  if (st.find? fun p => decide (p.1 = k)).isSome then
    st.map fun p => if p.1 = k then (k, d) else p
  else (k, d) :: st

/-- A `signal.web.snapshot` envelope with payload `{ source, body }`. -/
structure WebSnapshotEvent where
  ns : String
  source : String
  body : String
  producerNodeId : String
deriving DecidableEq

/-- The emitted `enriched.web.content_delta` envelope. -/
structure EnrichedDelta where
  ns : String
  eventType : String
  source : String
  summary : String
  hash : String
  previousHash : Option String
  producerNodeId : String
deriving DecidableEq

/-- `const changed = !prev?.hash || prev.hash !== hash` (JS: `""` is falsy). -/
def changedOf (prev : Option SnapData) (hash : String) : Bool :=
  match prev with
  | none => true
  | some d => decide (d.hash = "") || decide (d.hash ≠ hash)

/-- The entity key used by the handler: `(namespace, 'url', source)`. -/
def evKey (ev : WebSnapshotEvent) : EntityKey := (ev.ns, "url", ev.source)

/-- `WebContentEnrichNode.handleWebSnapshot`, with the SHA-256 capability as
the parameter `sha`.  Returns the updated `entity_state` table and the list of
events emitted in this delivery. -/
def handleWebSnapshot (sha : String → String) (st : EntityState) (ev : WebSnapshotEvent) :
    EntityState × List EnrichedDelta :=
  let normalized := normalizeHtml ev.body
  let hash := sha normalized
  let prev := lookupEntity st (evKey ev)
  let changed := changedOf prev hash
  let st1 := upsertEntity st (evKey ev) ⟨hash, normalized⟩
  if changed then
    (st1, [⟨ev.ns, "enriched.web.content_delta", ev.source, "Content changed",
           hash, prev.map (fun d => d.hash), ev.producerNodeId⟩])
  else (st1, [])

/-- Deliver the same `signal.web.snapshot` event `n` times in a row
(at-least-once redelivery), collecting all emitted events. -/
def deliverSnapshotN (sha : String → String) (st : EntityState) (ev : WebSnapshotEvent) :
    Nat → EntityState × List EnrichedDelta
  | 0 => (st, [])
  | n + 1 =>
    let r1 := handleWebSnapshot sha st ev
    let r2 := deliverSnapshotN sha r1.1 ev n
    (r2.1, r1.2 ++ r2.2)

/-- A heartbeat signal envelope with payload `{ value, count, timestamp }`. -/
structure HeartbeatEvent where
  ns : String
  value : Bool
  count : Nat
  producerNodeId : String
deriving DecidableEq

/-- The emitted `enriched.periodic.heartbeat` envelope. -/
structure HeartbeatOut where
  ns : String
  eventType : String
  value : Bool
  count : Nat
  processed : Bool
  producerNodeId : String
deriving DecidableEq

/-- `WebContentEnrichNode.handlePeriodicHeartbeat`: unconditionally emits one
`enriched.periodic.heartbeat`; it performs no read or write of
`core.entity_state`, which the state-passing type makes explicit. -/
def handlePeriodicHeartbeat (st : EntityState) (ev : HeartbeatEvent) :
    EntityState × List HeartbeatOut :=
  (st, [⟨ev.ns, "enriched.periodic.heartbeat", ev.value, ev.count, true, ev.producerNodeId⟩])

/-- Deliver the same heartbeat signal `n` times, collecting emissions. -/
def deliverHeartbeatN (st : EntityState) (ev : HeartbeatEvent) :
    Nat → EntityState × List HeartbeatOut
  | 0 => (st, [])
  | n + 1 =>
    let r1 := handlePeriodicHeartbeat st ev
    let r2 := deliverHeartbeatN r1.1 ev n
    (r2.1, r1.2 ++ r2.2)

end WebContentEnrichNode

/-! ## Actions (reactionNode.ts / interest_rules.actions) -/

/-- A reaction action object.  Only the fields the reaction node reads are
modelled: the dispatch `type`, and the optional `message` / `eventType`
parameters of the built-in adapters. -/
structure Action where
  type : String
  message : Option String := none
  eventType : Option String := none
deriving DecidableEq

/-! ## interestNode.ts (`InterestFilterNode`) -/

namespace InterestFilterNode

/-- A row of `core.interest_rules`. -/
structure IRule where
  ns : String
  rule_id : String
  name : String
  event_type : String
  condition_expr : String
  actions : List Action
  enabled : Bool
deriving DecidableEq

/-- An incoming `enriched.*` envelope; the payload is kept in its canonical
serialized form. -/
structure InEvent where
  ns : String
  eventType : String
  payload : String
  producerNodeId : String
deriving DecidableEq

/-- The emitted `interest.match` envelope payload
`{ruleId, ruleName, event, actions}`. -/
structure MatchOut where
  ns : String
  ruleId : String
  ruleName : String
  event : InEvent
  actions : List Action
deriving DecidableEq

/-- The condition-evaluation capability: the `fn(payload)` call made by
`evalCondition` in utils.ts (dynamic code execution, an external facility).
`.error` models a thrown exception or compile failure. -/
abbrev Evaluator := String → String → Except String Bool

/-- `evalCondition` from utils.ts: its own try/catch turns any evaluator
exception into `false` ("does not match"). -/
def evalCondition (e : Evaluator) (expr payload : String) : Bool :=
  match e expr payload with
  | .ok b => b
  | .error _ => false

/-- `SELECT * FROM core.interest_rules WHERE namespace=$1 AND event_type=$2 AND enabled=TRUE`. -/
def candidateRules (rules : List IRule) (ev : InEvent) : List IRule :=
  rules.filter fun r => decide (r.ns = ev.ns ∧ r.event_type = ev.eventType ∧ r.enabled = true)

/-- The `interest.match` envelope built for a matching rule. -/
def mkMatch (ev : InEvent) (r : IRule) : MatchOut :=
  ⟨ev.ns, r.rule_id, r.name, ev, r.actions⟩

/-- The per-rule evaluation loop of `handleEnrichedEvent`: each rule's
evaluation is wrapped in try/catch and a failure only skips that rule. -/
def evalRulesLoop (e : Evaluator) (ev : InEvent) : List IRule → List MatchOut
  | [] => []
  | r :: rest =>
    if evalCondition e r.condition_expr ev.payload then
      mkMatch ev r :: evalRulesLoop e ev rest
    else
      evalRulesLoop e ev rest

/-- `InterestFilterNode.handleEnrichedEvent`. -/
def handleEnrichedEvent (e : Evaluator) (rules : List IRule) (ev : InEvent) : List MatchOut :=
  evalRulesLoop e ev (candidateRules rules ev)

end InterestFilterNode

/-! ## reactionNode.ts (`ReactionNode`) -/

/-- The result object of `ReactionNode.executeAction`. -/
structure ActionResult where
  status : String
  externalRef : Option String := none
  error : Option String := none
deriving DecidableEq

namespace ReactionNode

/-- The triggering event carried inside the `interest.match` payload, as the
dedupe key consumes it: its `eventType` and `JSON.stringify(event.payload)`. -/
structure TriggerEvent where
  eventType : String
  payloadJson : String
deriving DecidableEq

/-- `generateDedupeKey` from utils.ts:
`sha256([namespace, ruleId, actionIndex.toString(), event.eventType, JSON.stringify(event.payload)].join("|"))`. -/
def generateDedupeKey (sha : String → String) (ns ruleId : String) (actionIndex : Nat)
    (ev : TriggerEvent) : String :=
  sha (String.intercalate "|" [ns, ruleId, toString actionIndex, ev.eventType, ev.payloadJson])

/-- A row of `core.reaction_executions`.  `execution_id` (a generated UUID in
the database) is modelled as a Nat drawn from a counter. -/
structure ExecRow where
  ns : String
  execution_id : Nat
  rule_id : String
  action_index : Nat
  dedupe_key : String
  status : String
  error : Option String
  external_ref : Option String
deriving DecidableEq

/-- The `core.reaction_executions` table plus the id generator. -/
structure ReactionState where
  table : List ExecRow
  nextId : Nat
deriving DecidableEq

/-- `SELECT execution_id FROM core.reaction_executions WHERE namespace=$1 AND dedupe_key=$2`. -/
def findExecution (t : List ExecRow) (ns dk : String) : Option ExecRow :=
  t.find? fun r => decide (r.ns = ns ∧ r.dedupe_key = dk)

/-- `INSERT INTO core.reaction_executions (namespace, rule_id, action_index, dedupe_key, status) VALUES (..., 'pending')`. -/
def insertPending (t : List ExecRow) (ns ruleId : String) (idx : Nat) (dk : String)
    (eid : Nat) : List ExecRow :=
  t ++ [⟨ns, eid, ruleId, idx, dk, "pending", none, none⟩]

/-- `UPDATE core.reaction_executions SET status=$1, external_ref=$2 WHERE execution_id=$3`
(note: the `error` column is not written on this path). -/
def updateExecution (t : List ExecRow) (eid : Nat) (res : ActionResult) : List ExecRow :=
  t.map fun r =>
    if r.execution_id = eid then
      { r with status := res.status, external_ref := res.externalRef }
    else r

/-- The catch-path write: `INSERT ... VALUES (..., 'failed', $5) ON CONFLICT
(namespace, dedupe_key) DO UPDATE SET status='failed', error=EXCLUDED.error`. -/
def upsertFailed (t : List ExecRow) (ns ruleId : String) (idx : Nat) (dk : String)
    (eid : Nat) (msg : String) : List ExecRow :=
  if (t.find? fun r => decide (r.ns = ns ∧ r.dedupe_key = dk)).isSome then
    t.map fun r =>
      if r.ns = ns ∧ r.dedupe_key = dk then
        { r with status := "failed", error := some msg }
      else r
  else t ++ [⟨ns, eid, ruleId, idx, dk, "failed", some msg, none⟩]

/-- The emitted `reaction.executed` envelope payload.  The catch path emits
`executionId: ""`, modelled as `none`. -/
structure ReactionExecuted where
  ns : String
  executionId : Option Nat
  ruleId : String
  actionIndex : Nat
  status : String
  externalRef : Option String
  error : Option String
deriving DecidableEq

/-- Failure injection for the pipeline-database calls of the action loop:
`pendingInsertFails i = some msg` makes the pending-row insert for action
index `i` throw `msg`; `catchWriteFails i` makes the catch-path upsert for
index `i` throw as well.  `noFaults` is the fault-free environment. -/
structure DbFaults where
  pendingInsertFails : Nat → Option String
  catchWriteFails : Nat → Bool

/-- The fault-free database environment. -/
def noFaults : DbFaults := ⟨fun _ => none, fun _ => false⟩

/-- `ReactionNode.executeAction`: dispatch by the declared `type` string.
The four built-in adapters are logging stubs that always return `completed`
with an `externalRef` (the `Date.now()` suffix is the parameter `now`); an
unknown type returns a failed result rather than throwing; the surrounding
try/catch makes the function total. -/
def executeAction (now : String) (a : Action) : ActionResult :=
  if a.type = "echo" then ⟨"completed", some ("echo-" ++ now), none⟩
  else if a.type = "slack_notification" then ⟨"completed", some ("slack-" ++ now), none⟩
  else if a.type = "emit_event" then
    ⟨"completed", some ("event-" ++ a.eventType.getD "undefined"), none⟩
  else if a.type = "create_ticket" then ⟨"completed", some ("ticket-" ++ now), none⟩
  else ⟨"failed", none, some ("Unknown action type: " ++ a.type)⟩

/-- One iteration of the action loop of `ReactionNode.handleInterestMatch`
(the body of `for (let actionIndex = 0; ...)`, try and catch blocks included).
Returns the updated state, the `reaction.executed` events emitted by this
iteration, and whether the action adapter (`executeAction`) was invoked;
`.error` is a throw that escapes the handler (only possible when the
catch-path write itself fails). -/
def runAction (f : DbFaults) (sha : String → String) (now : String) (st : ReactionState)
    (ns ruleId : String) (idx : Nat) (a : Action) (tev : TriggerEvent) :
    Except String (ReactionState × List ReactionExecuted × Bool) :=
  let dk := generateDedupeKey sha ns ruleId idx tev
  match findExecution st.table ns dk with
  | some _ => .ok (st, [], false)
  | none =>
    match f.pendingInsertFails idx with
    | some msg =>
      if f.catchWriteFails idx then .error msg
      else
        .ok (⟨upsertFailed st.table ns ruleId idx dk st.nextId msg, st.nextId + 1⟩,
             [⟨ns, none, ruleId, idx, "failed", none, some msg⟩], false)
    | none =>
      let eid := st.nextId
      let t1 := insertPending st.table ns ruleId idx dk eid
      let res := executeAction now a
      let t2 := updateExecution t1 eid res
      .ok (⟨t2, st.nextId + 1⟩,
           [⟨ns, some eid, ruleId, idx, res.status, res.externalRef, res.error⟩], true)

/-- The action loop itself, starting at action index `idx`. -/
def runActions (f : DbFaults) (sha : String → String) (now : String) (st : ReactionState)
    (ns ruleId : String) (idx : Nat) (tev : TriggerEvent) :
    List Action → Except String (ReactionState × List ReactionExecuted × List Nat)
  | [] => .ok (st, [], [])
  | a :: rest =>
    match runAction f sha now st ns ruleId idx a tev with
    | .error e => .error e
    | .ok (st1, evs1, inv1) =>
      match runActions f sha now st1 ns ruleId (idx + 1) tev rest with
      | .error e => .error e
      | .ok (st2, evs2, invs) =>
        .ok (st2, evs1 ++ evs2, (if inv1 then [idx] else []) ++ invs)

/-- An `interest.match` envelope as the reaction node consumes it. -/
structure MatchEvent where
  ns : String
  ruleId : String
  actions : List Action
  event : TriggerEvent
deriving DecidableEq

/-- `ReactionNode.handleInterestMatch`. -/
def handleInterestMatch (f : DbFaults) (sha : String → String) (now : String)
    (st : ReactionState) (ev : MatchEvent) :
    Except String (ReactionState × List ReactionExecuted × List Nat) :=
  runActions f sha now st ev.ns ev.ruleId 0 ev.event ev.actions

/-- Deliver the same `interest.match` event `n` times (fault-free database),
collecting all emitted `reaction.executed` events. -/
def deliverMatchN (sha : String → String) (now : String) (st : ReactionState)
    (ev : MatchEvent) : Nat → Except String (ReactionState × List ReactionExecuted)
  | 0 => .ok (st, [])
  | n + 1 =>
    match handleInterestMatch noFaults sha now st ev with
    | .error e => .error e
    | .ok (st1, evs1, _) =>
      match deliverMatchN sha now st1 ev n with
      | .error e => .error e
      | .ok (st2, evs2) => .ok (st2, evs1 ++ evs2)

/-- The table rows the action loop appends when none of its dedupe keys is
present yet and no catch write fails (proof-level mirror of the loop,
used to state the run lemma). -/
def specRows (f : DbFaults) (sha : String → String) (now ns ruleId : String)
    (tev : TriggerEvent) : Nat → Nat → List Action → List ExecRow
  | _, _, [] => []
  | idx, nid, a :: rest =>
    (match f.pendingInsertFails idx with
     | some msg =>
       (⟨ns, nid, ruleId, idx, generateDedupeKey sha ns ruleId idx tev,
         "failed", some msg, none⟩ : ExecRow)
     | none =>
       ⟨ns, nid, ruleId, idx, generateDedupeKey sha ns ruleId idx tev,
        (executeAction now a).status, none, (executeAction now a).externalRef⟩)
      :: specRows f sha now ns ruleId tev (idx + 1) (nid + 1) rest

/-- The `reaction.executed` events the loop emits in the same situation. -/
def specEvents (f : DbFaults) (now ns ruleId : String) :
    Nat → Nat → List Action → List ReactionExecuted
  | _, _, [] => []
  | idx, nid, a :: rest =>
    (match f.pendingInsertFails idx with
     | some msg => (⟨ns, none, ruleId, idx, "failed", none, some msg⟩ : ReactionExecuted)
     | none =>
       ⟨ns, some nid, ruleId, idx, (executeAction now a).status,
        (executeAction now a).externalRef, (executeAction now a).error⟩)
      :: specEvents f now ns ruleId (idx + 1) (nid + 1) rest

/-- The action indices whose adapter the loop invokes in the same situation. -/
def specInvoked (f : DbFaults) : Nat → List Action → List Nat
  | _, [] => []
  | idx, _ :: rest =>
    (match f.pendingInsertFails idx with
     | some _ => []
     | none => [idx]) ++ specInvoked f (idx + 1) rest

end ReactionNode

/-! ## processNode.ts (`ProcessNode`) -/

namespace ProcessNode

/-- An incoming envelope as the process node reads it: `handleReactionExecuted`
destructures `payload.ruleId` and `payload.status`; `handleInterestMatch` and
`determineProcessType` read only `eventType` and `namespace`. -/
structure PEventIn where
  ns : String
  eventType : String
  ruleId : String
  status : String
deriving DecidableEq

/-- A row of `core.process_instances`.  The `data` jsonb is modelled by the
fields the node writes: `data.ruleId`, `data.triggeredBy` and the
`data.events` history array.  `process_id` (a generated UUID) is a Nat drawn
from a counter. -/
structure ProcRow where
  process_id : Nat
  ns : String
  type : String
  state : String
  ruleIdData : Option String
  triggeredBy : Option String
  events : List PEventIn
deriving DecidableEq

/-- The `core.process_instances` table; rows are kept newest-first, so that a
prepend models `INSERT` and the head-first search models
`ORDER BY created_at DESC LIMIT 1` under sequential execution. -/
structure ProcState where
  rows : List ProcRow
  nextId : Nat
deriving DecidableEq

/-- The events the process node emits. -/
inductive ProcOut
  | processStarted (processId : Nat) (ptype pstate : String)
  | processUpdated (processId : Nat) (ptype pstate : String)
  | incidentCreated (processId : Nat) (ruleId : String) (event : PEventIn)
deriving DecidableEq

/-- `WHERE namespace=$1 AND type='incident' AND state='open'`. -/
def openIncident (ns : String) (r : ProcRow) : Bool :=
  decide (r.ns = ns ∧ r.type = "incident" ∧ r.state = "open")

/-- `SELECT process_id ... ORDER BY created_at DESC LIMIT 1`. -/
def findOpenIncident (rows : List ProcRow) (ns : String) : Option ProcRow :=
  rows.find? (openIncident ns)

/-- `UPDATE ... SET data = jsonb_set(data, '(events)', data->'events' || $1)`:
append the triggering event to the stored history of the given instance. -/
def appendEventTo (rows : List ProcRow) (pid : Nat) (ev : PEventIn) : List ProcRow :=
  rows.map fun q => if q.process_id = pid then { q with events := q.events ++ [ev] } else q

/-- `ProcessNode.createIncident`. -/
def createIncident (st : ProcState) (ev : PEventIn) (ruleId : String) :
    ProcState × List ProcOut :=
  match findOpenIncident st.rows ev.ns with
  | some r =>
    (⟨appendEventTo st.rows r.process_id ev, st.nextId⟩,
     [.processUpdated r.process_id "incident" "open"])
  | none =>
    (⟨⟨st.nextId, ev.ns, "incident", "open", some ruleId, none, [ev]⟩ :: st.rows,
      st.nextId + 1⟩,
     [.processStarted st.nextId "incident" "open",
      .incidentCreated st.nextId ruleId ev])

/-- `ProcessNode.handleReactionExecuted`. -/
def handleReactionExecuted (st : ProcState) (ev : PEventIn) : ProcState × List ProcOut :=
  if ev.status = "failed" then createIncident st ev ev.ruleId else (st, [])

/-- `eventType.startsWith(p)`, at the character level. -/
def startsWith (s p : String) : Bool :=
  p.data.isPrefixOf s.data

/-- `ProcessNode.determineProcessType`: a total pure classification. -/
def determineProcessType (eventType : String) : Option String :=
  if startsWith eventType "interest.match" then some "monitoring"
  else if startsWith eventType "enriched.periodic.heartbeat" then some "heartbeat-monitoring"
  else if startsWith eventType "enriched." then some "enrichment-process"
  else none

/-- `ProcessNode.createOrUpdateProcess`: despite its name it always inserts a
brand-new row (`INSERT ... RETURNING process_id`) and — the generated id being
always nonempty — emits `process.started`. -/
def createOrUpdateProcess (st : ProcState) (ev : PEventIn)
    (processType initialState : String) (triggeredBy : Option String) :
    ProcState × List ProcOut :=
  (⟨⟨st.nextId, ev.ns, processType, initialState, none, triggeredBy, [ev]⟩ :: st.rows,
    st.nextId + 1⟩,
   [.processStarted st.nextId processType initialState])

/-- `ProcessNode.handleInterestMatch`. -/
def handleInterestMatch (st : ProcState) (ev : PEventIn) : ProcState × List ProcOut :=
  match determineProcessType ev.eventType with
  | some pt => createOrUpdateProcess st ev pt "started" (some ev.eventType)
  | none => (st, [])

/-- Deliver the same `interest.match` event `n` times in a row. -/
def deliverProcessN (st : ProcState) (ev : PEventIn) : Nat → ProcState × List ProcOut
  | 0 => (st, [])
  | n + 1 =>
    let r1 := handleInterestMatch st ev
    let r2 := deliverProcessN r1.1 ev n
    (r2.1, r1.2 ++ r2.2)

end ProcessNode

/-! ## pipeline-loader.ts -/

namespace PipelineLoader

/-- A node definition as parsed from JSON: every field may be absent. -/
structure RawNode where
  id : Option String
  type : Option String
  listensTo : Option (List String)
deriving DecidableEq

/-- A pipeline configuration as parsed from JSON.  `nodes = none` models both
an absent field and a non-array value (`Array.isArray` fails on either). -/
structure RawConfig where
  name : Option String
  ns : Option String
  nodes : Option (List RawNode)
deriving DecidableEq

/-- JS truthiness of a string field: absent and `""` are falsy. -/
def isTruthyStr : Option String → Bool
  | none => false
  | some s => decide (s ≠ "")

/-- The per-node loop of `loadPipelineConfig`:
`if (!node.id || !node.type || !Array.isArray(node.listensTo)) throw`. -/
def checkNodes : List RawNode → Except String Unit
  | [] => .ok ()
  | n :: rest =>
    if !isTruthyStr n.id || !isTruthyStr n.type || n.listensTo.isNone then
      .error "Invalid node definition: missing required fields"
    else checkNodes rest

/-- The validation performed by `loadPipelineConfig` after `JSON.parse`:
`if (!config.name || !config.namespace || !Array.isArray(config.nodes)) throw`,
then the per-node loop.  Note that an empty `nodes` array passes. -/
def loadChecks (c : RawConfig) : Except String Unit :=
  if !isTruthyStr c.name || !isTruthyStr c.ns || c.nodes.isNone then
    .error "Invalid pipeline config: missing required fields (name, namespace, nodes)"
  else checkNodes (c.nodes.getD [])

/-- The duplicate-id loop of `validatePipelineConfig`; `seen` is the `Set`. -/
def checkDupIds (seen : List String) : List RawNode → Except String Unit
  | [] => .ok ()
  | n :: rest =>
    if seen.contains (n.id.getD "") then .error "Duplicate node ID"
    else checkDupIds (n.id.getD "" :: seen) rest

/-- The six enumerated node types. -/
def validTypes : List String :=
  ["connector", "enricher", "interest", "reaction", "process", "custom"]

/-- The type loop of `validatePipelineConfig`. -/
def checkTypes : List RawNode → Except String Unit
  | [] => .ok ()
  | n :: rest =>
    if validTypes.contains (n.type.getD "") then checkTypes rest
    else .error "Invalid node type"

/-- `validatePipelineConfig`. -/
def validatePipelineConfig (c : RawConfig) : Except String Unit :=
  match checkDupIds [] (c.nodes.getD []) with
  | .error e => .error e
  | .ok _ => checkTypes (c.nodes.getD [])

/-- `loadPipelineConfig` followed by `validatePipelineConfig`, in the order
`main()` runs them — both before the executor is even constructed, so a
rejection happens before any node is constructed or started. -/
def loadAndValidate (c : RawConfig) : Except String Unit :=
  match loadChecks c with
  | .error e => .error e
  | .ok _ => validatePipelineConfig c

end PipelineLoader

end Reflex

namespace Reflex

namespace WebContentEnrichNode

theorem find?_map_key_eq (k : EntityKey) (d : SnapData) :
    ∀ (st : EntityState),
      ((st.find? fun p => decide (p.1 = k)).isSome) →
      ((st.map fun p => if p.1 = k then (k, d) else p).find? fun p => decide (p.1 = k))
        = some (k, d) := by
  intro st
  induction st with
  | nil => intro h; simp [List.find?] at h
  | cons p rest ih =>
    intro h
    by_cases hp : p.1 = k
    · simp [List.find?, hp]
    · have hpa : ¬((fun q : EntityKey × SnapData => decide (q.1 = k)) p = true) := by
        simp [hp]
      rw [List.find?_cons_of_neg rest hpa] at h
      simp only [List.map_cons, if_neg hp]
      rw [List.find?_cons_of_neg (List.map (fun p => if p.1 = k then (k, d) else p) rest) hpa]
      exact ih h

theorem lookup_upsert_self (st : EntityState) (k : EntityKey) (d : SnapData) :
    lookupEntity (upsertEntity st k d) k = some d := by
  unfold upsertEntity
  by_cases h : (st.find? fun p => decide (p.1 = k)).isSome
  · rw [if_pos h]
    unfold lookupEntity
    rw [find?_map_key_eq k d st h]
    rfl
  · rw [if_neg h]
    unfold lookupEntity
    simp [List.find?]

theorem handleWebSnapshot_fst (sha : String → String) (st : EntityState) (ev : WebSnapshotEvent) :
    (handleWebSnapshot sha st ev).1
      = upsertEntity st (evKey ev) ⟨sha (normalizeHtml ev.body), normalizeHtml ev.body⟩ := by
  cases hc : changedOf (lookupEntity st (evKey ev)) (sha (normalizeHtml ev.body)) <;>
    simp [handleWebSnapshot, hc]

theorem handleWebSnapshot_snd (sha : String → String) (st : EntityState) (ev : WebSnapshotEvent) :
    (handleWebSnapshot sha st ev).2
      = if changedOf (lookupEntity st (evKey ev)) (sha (normalizeHtml ev.body)) then
          [⟨ev.ns, "enriched.web.content_delta", ev.source, "Content changed",
            sha (normalizeHtml ev.body), (lookupEntity st (evKey ev)).map (fun d => d.hash),
            ev.producerNodeId⟩]
        else [] := by
  cases hc : changedOf (lookupEntity st (evKey ev)) (sha (normalizeHtml ev.body)) <;>
    simp [handleWebSnapshot, hc]

theorem changedOf_none (hash : String) : changedOf none hash = true := rfl

theorem changedOf_some_ne (d : SnapData) (hash : String) (h : d.hash ≠ hash) :
    changedOf (some d) hash = true := by
  simp [changedOf, h]

theorem changedOf_some_eq (d : SnapData) (hash : String) (h : d.hash = hash) (h0 : d.hash ≠ "") :
    changedOf (some d) hash = false := by
  simp [changedOf, h, h ▸ h0]

/-- If the stored snapshot already carries the new fingerprint (a nonempty
hash), redelivery emits nothing and the snapshot stays put. -/
theorem deliverSnapshotN_stable (sha : String → String) (ev : WebSnapshotEvent)
    (hfp : sha (normalizeHtml ev.body) ≠ "") :
    ∀ (n : Nat) (st : EntityState),
      lookupEntity st (evKey ev) = some ⟨sha (normalizeHtml ev.body), normalizeHtml ev.body⟩ →
      (deliverSnapshotN sha st ev n).2 = [] ∧
      lookupEntity (deliverSnapshotN sha st ev n).1 (evKey ev)
        = some ⟨sha (normalizeHtml ev.body), normalizeHtml ev.body⟩ := by
  intro n
  induction n with
  | zero => intro st h; exact ⟨rfl, h⟩
  | succ m ih =>
    intro st h
    have hch : changedOf (lookupEntity st (evKey ev)) (sha (normalizeHtml ev.body)) = false := by
      rw [h]; exact changedOf_some_eq _ _ rfl hfp
    have h1 : lookupEntity (handleWebSnapshot sha st ev).1 (evKey ev)
        = some ⟨sha (normalizeHtml ev.body), normalizeHtml ev.body⟩ := by
      rw [handleWebSnapshot_fst]; exact lookup_upsert_self st _ _
    have h2 : (handleWebSnapshot sha st ev).2 = [] := by
      rw [handleWebSnapshot_snd, hch]; rfl
    have ihm := ih (handleWebSnapshot sha st ev).1 h1
    refine ⟨?_, ihm.2⟩
    show (handleWebSnapshot sha st ev).2 ++ _ = []
    rw [h2, ihm.1]
    rfl

end WebContentEnrichNode

open WebContentEnrichNode in
/-- C2.  For every `signal.web.snapshot` event, provided the stored
fingerprints are nonempty strings (SHA-256 hex digests always are):
the entity snapshot for `(namespace, 'url', source)` is always upserted
with the new fingerprint of the normalized body, and the
`enriched.web.content_delta` event — carrying the source, the new
fingerprint and the previous one — is emitted exactly when there is no
prior snapshot or the prior fingerprint differs from the new one. -/
theorem enrich_c2_diff_decision (sha : String → String) (st : EntityState)
    (ev : WebSnapshotEvent)
    (hwf : ∀ d, lookupEntity st (evKey ev) = some d → d.hash ≠ "") :
    lookupEntity (handleWebSnapshot sha st ev).1 (evKey ev)
      = some ⟨sha (normalizeHtml ev.body), normalizeHtml ev.body⟩ ∧
    (lookupEntity st (evKey ev) = none →
      (handleWebSnapshot sha st ev).2
        = [⟨ev.ns, "enriched.web.content_delta", ev.source, "Content changed",
            sha (normalizeHtml ev.body), none, ev.producerNodeId⟩]) ∧
    (∀ d, lookupEntity st (evKey ev) = some d → d.hash ≠ sha (normalizeHtml ev.body) →
      (handleWebSnapshot sha st ev).2
        = [⟨ev.ns, "enriched.web.content_delta", ev.source, "Content changed",
            sha (normalizeHtml ev.body), some d.hash, ev.producerNodeId⟩]) ∧
    (∀ d, lookupEntity st (evKey ev) = some d → d.hash = sha (normalizeHtml ev.body) →
      (handleWebSnapshot sha st ev).2 = []) := by
  refine ⟨?_, ?_, ?_, ?_⟩
  · rw [handleWebSnapshot_fst]; exact lookup_upsert_self st _ _
  · intro hnone
    rw [handleWebSnapshot_snd, hnone, changedOf_none]
    rfl
  · intro d hd hne
    rw [handleWebSnapshot_snd, hd, changedOf_some_ne d _ hne]
    rfl
  · intro d hd heq
    rw [handleWebSnapshot_snd, hd, changedOf_some_eq d _ heq (hwf d hd)]
    rfl

/-- Witness for C2 at a concrete input (empty table, body with double space). -/
theorem enrich_c2_diff_decision_witness :
    WebContentEnrichNode.lookupEntity
        (WebContentEnrichNode.handleWebSnapshot (fun s => "h" ++ s) []
          ⟨"n", "s", "a  b", "p"⟩).1
        (WebContentEnrichNode.evKey ⟨"n", "s", "a  b", "p"⟩)
      = some ⟨"ha b", "a b"⟩ ∧
    (WebContentEnrichNode.handleWebSnapshot (fun s => "h" ++ s) []
        ⟨"n", "s", "a  b", "p"⟩).2
      = [⟨"n", "enriched.web.content_delta", "s", "Content changed", "ha b", none, "p"⟩] := by
  have h := enrich_c2_diff_decision (fun s => "h" ++ s) [] ⟨"n", "s", "a  b", "p"⟩
    (by intro d hd; simp [WebContentEnrichNode.lookupEntity] at hd)
  have hn : normalizeHtml "a  b" = "a b" := by decide
  refine ⟨?_, ?_⟩
  · have h1 := h.1
    simpa [hn] using h1
  · have h2 := h.2.1 (by rfl)
    simpa [hn] using h2

open WebContentEnrichNode in
/-- C3.  The Enrich/Diff node is idempotent under at-least-once delivery:
if the new fingerprint is nonempty and the prior snapshot (if any) carries a
different fingerprint, then delivering the same signal N ≥ 1 times emits
exactly one enriched event in total, and after every delivery from the first
onward the stored snapshot carries the new fingerprint. -/
theorem enrich_c3_idempotent (sha : String → String) (st : EntityState)
    (ev : WebSnapshotEvent) (N : Nat)
    (hfp : sha (normalizeHtml ev.body) ≠ "")
    (hinit : ∀ d, lookupEntity st (evKey ev) = some d → d.hash ≠ sha (normalizeHtml ev.body))
    (hN : 1 ≤ N) :
    (deliverSnapshotN sha st ev N).2.length = 1 ∧
    ∀ k, 1 ≤ k → k ≤ N →
      lookupEntity (deliverSnapshotN sha st ev k).1 (evKey ev)
        = some ⟨sha (normalizeHtml ev.body), normalizeHtml ev.body⟩ := by
  have hch : changedOf (lookupEntity st (evKey ev)) (sha (normalizeHtml ev.body)) = true := by
    cases hl : lookupEntity st (evKey ev) with
    | none => exact changedOf_none _
    | some d => exact changedOf_some_ne d _ (hinit d hl)
  have h1 : lookupEntity (handleWebSnapshot sha st ev).1 (evKey ev)
      = some ⟨sha (normalizeHtml ev.body), normalizeHtml ev.body⟩ := by
    rw [handleWebSnapshot_fst]; exact lookup_upsert_self st _ _
  have h2 : (handleWebSnapshot sha st ev).2
      = [⟨ev.ns, "enriched.web.content_delta", ev.source, "Content changed",
          sha (normalizeHtml ev.body), (lookupEntity st (evKey ev)).map (fun d => d.hash),
          ev.producerNodeId⟩] := by
    rw [handleWebSnapshot_snd, hch]; rfl
  constructor
  · obtain ⟨m, rfl⟩ : ∃ m, N = m + 1 := ⟨N - 1, by omega⟩
    have hst := deliverSnapshotN_stable sha ev hfp m (handleWebSnapshot sha st ev).1 h1
    show ((handleWebSnapshot sha st ev).2 ++ _).length = 1
    rw [h2, hst.1]
    rfl
  · intro k hk1 hkN
    obtain ⟨j, rfl⟩ : ∃ j, k = j + 1 := ⟨k - 1, by omega⟩
    have hst := deliverSnapshotN_stable sha ev hfp j (handleWebSnapshot sha st ev).1 h1
    exact hst.2

/-- Witness for C3 with sha prepending a letter, empty initial table, N = 3. -/
theorem enrich_c3_idempotent_witness :
    (WebContentEnrichNode.deliverSnapshotN (fun s => "h" ++ s) []
      ⟨"n", "s", "a  b", "p"⟩ 3).2.length = 1 := by
  have h := enrich_c3_idempotent (fun s => "h" ++ s) [] ⟨"n", "s", "a  b", "p"⟩ 3
    (by decide)
    (by intro d hd; simp [WebContentEnrichNode.lookupEntity] at hd)
    (by decide)
  exact h.1

open WebContentEnrichNode in
/-- C9.  For every `signal.periodic.heartbeat` delivery the Enrich node emits
exactly one `enriched.periodic.heartbeat` unconditionally and leaves the
entity-snapshot table untouched; N redeliveries emit N enriched events, so the
diff-based idempotency does not apply to this input. -/
theorem enrich_c9_heartbeat :
    ∀ (st : EntityState) (ev : HeartbeatEvent),
      handlePeriodicHeartbeat st ev
        = (st, [⟨ev.ns, "enriched.periodic.heartbeat", ev.value, ev.count, true,
                ev.producerNodeId⟩]) ∧
      ∀ N : Nat, (deliverHeartbeatN st ev N).2.length = N ∧ (deliverHeartbeatN st ev N).1 = st := by
  intro st ev
  refine ⟨rfl, ?_⟩
  intro N
  induction N with
  | zero => exact ⟨rfl, rfl⟩
  | succ m ih =>
    refine ⟨?_, ih.2⟩
    show ((handlePeriodicHeartbeat st ev).2 ++ (deliverHeartbeatN st ev m).2).length = m + 1
    simp [handlePeriodicHeartbeat, ih.1]

namespace InterestFilterNode

theorem evalRulesLoop_eq_filter_map (e : Evaluator) (ev : InEvent) :
    ∀ rs : List IRule,
      evalRulesLoop e ev rs
        = (rs.filter fun r => evalCondition e r.condition_expr ev.payload).map (mkMatch ev) := by
  intro rs
  induction rs with
  | nil => rfl
  | cons r rest ih =>
    by_cases h : evalCondition e r.condition_expr ev.payload
    · simp [evalRulesLoop, h, ih]
    · simp only [Bool.not_eq_true] at h
      simp [evalRulesLoop, h, ih]

end InterestFilterNode

open InterestFilterNode in
/-- C4.  Rule evaluation in the Interest Filter is isolated per rule: an
evaluator exception is treated as "does not match" (second conjunct), and the
emitted `interest.match` events are exactly one per enabled candidate rule
whose predicate evaluates true, independent of the outcome of the other rules
(first conjunct: the handler equals a filter-then-map over the candidates). -/
theorem interest_c4_rule_isolation (e : Evaluator) (rules : List IRule) (ev : InEvent) :
    handleEnrichedEvent e rules ev
      = ((candidateRules rules ev).filter
          fun r => evalCondition e r.condition_expr ev.payload).map (mkMatch ev) ∧
    (∀ expr payload msg, e expr payload = .error msg → evalCondition e expr payload = false) := by
  constructor
  · exact evalRulesLoop_eq_filter_map e ev (candidateRules rules ev)
  · intro expr payload msg h
    simp [evalCondition, h]

open InterestFilterNode in
/-- Witness for C4: rule R1's predicate throws, rule R2's predicate is true;
exactly one match event is emitted, for R2. -/
theorem interest_c4_rule_isolation_witness :
    handleEnrichedEvent
        (fun expr _ => if expr = "boom" then .error "thrown" else .ok (decide (expr = "true")))
        [⟨"n", "r1", "R1", "enriched.web.content_delta", "boom", [], true⟩,
         ⟨"n", "r2", "R2", "enriched.web.content_delta", "true", [], true⟩]
        ⟨"n", "enriched.web.content_delta", "p", "pr"⟩
      = [⟨"n", "r2", "R2", ⟨"n", "enriched.web.content_delta", "p", "pr"⟩, []⟩] ∧
    evalCondition
        (fun expr _ => if expr = "boom" then .error "thrown" else .ok (decide (expr = "true")))
        "boom" "p" = false := by
  have h := interest_c4_rule_isolation
    (fun expr _ => if expr = "boom" then .error "thrown" else .ok (decide (expr = "true")))
    [⟨"n", "r1", "R1", "enriched.web.content_delta", "boom", [], true⟩,
     ⟨"n", "r2", "R2", "enriched.web.content_delta", "true", [], true⟩]
    ⟨"n", "enriched.web.content_delta", "p", "pr"⟩
  refine ⟨?_, h.2 "boom" "p" "thrown" rfl⟩
  rw [h.1]
  decide

namespace ReactionNode

theorem executeAction_status_terminal (now : String) (a : Action) :
    (executeAction now a).status = "completed" ∨ (executeAction now a).status = "failed" := by
  unfold executeAction
  split_ifs <;> simp

theorem executeAction_unknown (now : String) (a : Action)
    (h1 : a.type ≠ "echo") (h2 : a.type ≠ "slack_notification")
    (h3 : a.type ≠ "emit_event") (h4 : a.type ≠ "create_ticket") :
    executeAction now a = ⟨"failed", none, some ("Unknown action type: " ++ a.type)⟩ := by
  unfold executeAction
  simp [h1, h2, h3, h4]

theorem findExecution_append_none (t : List ExecRow) (r : ExecRow) (ns dk : String)
    (h : findExecution t ns dk = none) (hr : ¬(r.ns = ns ∧ r.dedupe_key = dk)) :
    findExecution (t ++ [r]) ns dk = none := by
  unfold findExecution at *
  rw [List.find?_append, h]
  simp [List.find?, hr]

theorem updateExecution_eq_of_fresh (eid : Nat) (res : ActionResult) :
    ∀ t : List ExecRow, (∀ r ∈ t, r.execution_id ≠ eid) → updateExecution t eid res = t := by
  intro t
  induction t with
  | nil => intro _; rfl
  | cons r rest ih =>
    intro h
    unfold updateExecution at *
    simp only [List.map_cons]
    rw [if_neg (h r (by simp)), ih (fun q hq => h q (by simp [hq]))]

theorem updateExecution_append (t l : List ExecRow) (eid : Nat) (res : ActionResult) :
    updateExecution (t ++ l) eid res = updateExecution t eid res ++ updateExecution l eid res := by
  unfold updateExecution
  exact List.map_append _ t l

/-- Skip branch: an existing row with the same `(namespace, dedupe_key)`
short-circuits the whole iteration. -/
theorem runAction_skip (f : DbFaults) (sha : String → String) (now : String)
    (st : ReactionState) (ns ruleId : String) (idx : Nat) (a : Action) (tev : TriggerEvent)
    (r : ExecRow)
    (h : findExecution st.table ns (generateDedupeKey sha ns ruleId idx tev) = some r) :
    runAction f sha now st ns ruleId idx a tev = .ok (st, [], false) := by
  unfold runAction
  simp [h]

/-- Catch path with a working catch write: the pending-insert failure is
recorded as a failed row, a failed completion event is emitted, and the
iteration returns normally. -/
theorem runAction_fault (f : DbFaults) (sha : String → String) (now : String)
    (st : ReactionState) (ns ruleId : String) (idx : Nat) (a : Action) (tev : TriggerEvent)
    (msg : String)
    (hfind : findExecution st.table ns (generateDedupeKey sha ns ruleId idx tev) = none)
    (hpf : f.pendingInsertFails idx = some msg)
    (hcw : f.catchWriteFails idx = false) :
    runAction f sha now st ns ruleId idx a tev
      = .ok (⟨st.table ++ [⟨ns, st.nextId, ruleId, idx,
              generateDedupeKey sha ns ruleId idx tev, "failed", some msg, none⟩],
             st.nextId + 1⟩,
            [⟨ns, none, ruleId, idx, "failed", none, some msg⟩], false) := by
  have hfind' : (List.find?
      (fun r => decide (r.ns = ns ∧ r.dedupe_key = generateDedupeKey sha ns ruleId idx tev))
      st.table) = none := hfind
  have hcond : (List.find?
      (fun r => decide (r.ns = ns ∧ r.dedupe_key = generateDedupeKey sha ns ruleId idx tev))
      st.table).isSome = false := by rw [hfind']; rfl
  unfold runAction upsertFailed
  dsimp only
  rw [hfind]
  simp only [hpf, hcw, hcond]
  simp

/-- Catch path whose own write also throws: the error escapes the handler. -/
theorem runAction_catch_throw (f : DbFaults) (sha : String → String) (now : String)
    (st : ReactionState) (ns ruleId : String) (idx : Nat) (a : Action) (tev : TriggerEvent)
    (msg : String)
    (hfind : findExecution st.table ns (generateDedupeKey sha ns ruleId idx tev) = none)
    (hpf : f.pendingInsertFails idx = some msg)
    (hcw : f.catchWriteFails idx = true) :
    runAction f sha now st ns ruleId idx a tev = .error msg := by
  unfold runAction
  simp [hfind, hpf, hcw]

/-- Normal path: insert pending, run the adapter, update the row to the
terminal status, emit one completion event. -/
theorem runAction_normal (f : DbFaults) (sha : String → String) (now : String)
    (st : ReactionState) (ns ruleId : String) (idx : Nat) (a : Action) (tev : TriggerEvent)
    (hfind : findExecution st.table ns (generateDedupeKey sha ns ruleId idx tev) = none)
    (hpf : f.pendingInsertFails idx = none)
    (hid : ∀ r ∈ st.table, r.execution_id < st.nextId) :
    runAction f sha now st ns ruleId idx a tev
      = .ok (⟨st.table ++ [⟨ns, st.nextId, ruleId, idx,
              generateDedupeKey sha ns ruleId idx tev,
              (executeAction now a).status, none, (executeAction now a).externalRef⟩],
             st.nextId + 1⟩,
            [⟨ns, some st.nextId, ruleId, idx, (executeAction now a).status,
              (executeAction now a).externalRef, (executeAction now a).error⟩], true) := by
  unfold runAction insertPending
  have hup : updateExecution
      (st.table ++ [⟨ns, st.nextId, ruleId, idx,
        generateDedupeKey sha ns ruleId idx tev, "pending", none, none⟩])
      st.nextId (executeAction now a)
      = st.table ++ [⟨ns, st.nextId, ruleId, idx,
          generateDedupeKey sha ns ruleId idx tev,
          (executeAction now a).status, none, (executeAction now a).externalRef⟩] := by
    rw [updateExecution_append,
        updateExecution_eq_of_fresh st.nextId _ st.table (fun r hr => Nat.ne_of_lt (hid r hr))]
    unfold updateExecution
    simp
  simp [hfind, hpf, hup]

/-- The fault-free-catch run of the action loop: with all dedupe keys distinct
and none of them present yet, every action is processed, one row and one event
per action. -/
theorem runActions_run (f : DbFaults) (sha : String → String) (now ns ruleId : String)
    (tev : TriggerEvent) (hcw : ∀ i, f.catchWriteFails i = false) :
    ∀ (actions : List Action) (idx : Nat) (st : ReactionState),
      (∀ j, idx ≤ j → j < idx + actions.length →
        findExecution st.table ns (generateDedupeKey sha ns ruleId j tev) = none) →
      (∀ j k, idx ≤ j → j < idx + actions.length → idx ≤ k → k < idx + actions.length →
        generateDedupeKey sha ns ruleId j tev = generateDedupeKey sha ns ruleId k tev → j = k) →
      (∀ r ∈ st.table, r.execution_id < st.nextId) →
      runActions f sha now st ns ruleId idx tev actions
        = .ok (⟨st.table ++ specRows f sha now ns ruleId tev idx st.nextId actions,
               st.nextId + actions.length⟩,
              specEvents f now ns ruleId idx st.nextId actions,
              specInvoked f idx actions) := by
  intro actions
  induction actions with
  | nil =>
    intro idx st _ _ _
    simp [runActions, specRows, specEvents, specInvoked]
  | cons a rest ih =>
    intro idx st hfresh hdk hid
    have h0 : findExecution st.table ns (generateDedupeKey sha ns ruleId idx tev) = none :=
      hfresh idx (Nat.le_refl idx) (by simp)
    cases hpf : f.pendingInsertFails idx with
    | some msg =>
      have hra := runAction_fault f sha now st ns ruleId idx a tev msg h0 hpf (hcw idx)
      have hfresh1 : ∀ j, idx + 1 ≤ j → j < (idx + 1) + rest.length →
          findExecution (st.table ++ [⟨ns, st.nextId, ruleId, idx,
            generateDedupeKey sha ns ruleId idx tev, "failed", some msg, none⟩]) ns
            (generateDedupeKey sha ns ruleId j tev) = none := by
        intro j hj1 hj2
        refine findExecution_append_none _ _ _ _ (hfresh j (by omega) (by simp; omega)) ?_
        intro hr
        have := hdk idx j (Nat.le_refl idx) (by simp) (by omega) (by simp; omega) hr.2
        omega
      have hdk1 : ∀ j k, idx + 1 ≤ j → j < (idx + 1) + rest.length → idx + 1 ≤ k →
          k < (idx + 1) + rest.length →
          generateDedupeKey sha ns ruleId j tev = generateDedupeKey sha ns ruleId k tev →
          j = k := by
        intro j k hj1 hj2 hk1 hk2 h
        exact hdk j k (by omega) (by simp; omega) (by omega) (by simp; omega) h
      have hid1 : ∀ r ∈ (st.table ++ [⟨ns, st.nextId, ruleId, idx,
          generateDedupeKey sha ns ruleId idx tev, "failed", some msg, none⟩]),
          r.execution_id < st.nextId + 1 := by
        intro r hr
        rcases List.mem_append.1 hr with h | h
        · exact Nat.lt_succ_of_lt (hid r h)
        · simp at h
          subst h
          simp
      have hIH := ih (idx + 1)
        ⟨st.table ++ [⟨ns, st.nextId, ruleId, idx,
          generateDedupeKey sha ns ruleId idx tev, "failed", some msg, none⟩], st.nextId + 1⟩
        hfresh1 hdk1 hid1
      show (match runAction f sha now st ns ruleId idx a tev with
        | Except.error e => Except.error e
        | Except.ok (st1, evs1, inv1) =>
          match runActions f sha now st1 ns ruleId (idx + 1) tev rest with
          | Except.error e => Except.error e
          | Except.ok (st2, evs2, invs) =>
            Except.ok (st2, evs1 ++ evs2, (if inv1 then [idx] else []) ++ invs)) = _
      rw [hra]
      simp only []
      rw [hIH]
      simp only [specRows, specEvents, specInvoked, hpf]
      simp [List.append_assoc]
      omega
    | none =>
      have hra := runAction_normal f sha now st ns ruleId idx a tev h0 hpf hid
      have hfresh1 : ∀ j, idx + 1 ≤ j → j < (idx + 1) + rest.length →
          findExecution (st.table ++ [⟨ns, st.nextId, ruleId, idx,
            generateDedupeKey sha ns ruleId idx tev,
            (executeAction now a).status, none, (executeAction now a).externalRef⟩]) ns
            (generateDedupeKey sha ns ruleId j tev) = none := by
        intro j hj1 hj2
        refine findExecution_append_none _ _ _ _ (hfresh j (by omega) (by simp; omega)) ?_
        intro hr
        have := hdk idx j (Nat.le_refl idx) (by simp) (by omega) (by simp; omega) hr.2
        omega
      have hdk1 : ∀ j k, idx + 1 ≤ j → j < (idx + 1) + rest.length → idx + 1 ≤ k →
          k < (idx + 1) + rest.length →
          generateDedupeKey sha ns ruleId j tev = generateDedupeKey sha ns ruleId k tev →
          j = k := by
        intro j k hj1 hj2 hk1 hk2 h
        exact hdk j k (by omega) (by simp; omega) (by omega) (by simp; omega) h
      have hid1 : ∀ r ∈ (st.table ++ [⟨ns, st.nextId, ruleId, idx,
          generateDedupeKey sha ns ruleId idx tev,
          (executeAction now a).status, none, (executeAction now a).externalRef⟩]),
          r.execution_id < st.nextId + 1 := by
        intro r hr
        rcases List.mem_append.1 hr with h | h
        · exact Nat.lt_succ_of_lt (hid r h)
        · simp at h
          subst h
          simp
      have hIH := ih (idx + 1)
        ⟨st.table ++ [⟨ns, st.nextId, ruleId, idx,
          generateDedupeKey sha ns ruleId idx tev,
          (executeAction now a).status, none, (executeAction now a).externalRef⟩], st.nextId + 1⟩
        hfresh1 hdk1 hid1
      show (match runAction f sha now st ns ruleId idx a tev with
        | Except.error e => Except.error e
        | Except.ok (st1, evs1, inv1) =>
          match runActions f sha now st1 ns ruleId (idx + 1) tev rest with
          | Except.error e => Except.error e
          | Except.ok (st2, evs2, invs) =>
            Except.ok (st2, evs1 ++ evs2, (if inv1 then [idx] else []) ++ invs)) = _
      rw [hra]
      simp only []
      rw [hIH]
      simp only [specRows, specEvents, specInvoked, hpf]
      simp [List.append_assoc]
      omega

/-- If every dedupe key of the remaining actions is already present, the
loop skips them all: no state change, no events, no adapter invocations. -/
theorem runActions_skip (f : DbFaults) (sha : String → String) (now ns ruleId : String)
    (tev : TriggerEvent) :
    ∀ (actions : List Action) (idx : Nat) (st : ReactionState),
      (∀ j, idx ≤ j → j < idx + actions.length →
        (findExecution st.table ns (generateDedupeKey sha ns ruleId j tev)).isSome) →
      runActions f sha now st ns ruleId idx tev actions = .ok (st, [], []) := by
  intro actions
  induction actions with
  | nil => intro idx st _; rfl
  | cons a rest ih =>
    intro idx st hkeys
    have h0 : (findExecution st.table ns (generateDedupeKey sha ns ruleId idx tev)).isSome :=
      hkeys idx (Nat.le_refl idx) (by simp)
    obtain ⟨r, hr⟩ := Option.isSome_iff_exists.1 h0
    have hra := runAction_skip f sha now st ns ruleId idx a tev r hr
    have hIH := ih (idx + 1) st (fun j hj1 hj2 => hkeys j (by omega) (by simp; omega))
    show (match runAction f sha now st ns ruleId idx a tev with
      | Except.error e => Except.error e
      | Except.ok (st1, evs1, inv1) =>
        match runActions f sha now st1 ns ruleId (idx + 1) tev rest with
        | Except.error e => Except.error e
        | Except.ok (st2, evs2, invs) =>
          Except.ok (st2, evs1 ++ evs2, (if inv1 then [idx] else []) ++ invs)) = _
    rw [hra]
    simp only []
    rw [hIH]
    simp

/-- Every dedupe key processed by a fresh run is present in its `specRows`. -/
theorem specRows_key_isSome (f : DbFaults) (sha : String → String) (now ns ruleId : String)
    (tev : TriggerEvent) :
    ∀ (actions : List Action) (idx nid j : Nat), idx ≤ j → j < idx + actions.length →
      (findExecution (specRows f sha now ns ruleId tev idx nid actions) ns
        (generateDedupeKey sha ns ruleId j tev)).isSome := by
  intro actions
  induction actions with
  | nil => intro idx nid j h1 h2; simp at h2; omega
  | cons a rest ih =>
    intro idx nid j h1 h2
    by_cases hkey : generateDedupeKey sha ns ruleId idx tev = generateDedupeKey sha ns ruleId j tev
    · cases hpf : f.pendingInsertFails idx <;>
        simp [specRows, findExecution, List.find?, hpf, hkey]
    · have hj : idx + 1 ≤ j := by
        by_cases hji : j = idx
        · subst hji; exact absurd rfl hkey
        · omega
      have hrest := ih (idx + 1) (nid + 1) j hj (by simp at h2 ⊢; omega)
      cases hpf : f.pendingInsertFails idx <;>
        simpa [specRows, findExecution, List.find?, hpf, hkey] using hrest

/-- The row-count of `specRows` for a fixed `(namespace, ruleId, actionIndex)`
below the loop start is zero. -/
theorem specRows_countP_lt (f : DbFaults) (sha : String → String) (now ns ruleId : String)
    (tev : TriggerEvent) (i : Nat) :
    ∀ (actions : List Action) (idx nid : Nat), i < idx →
      (specRows f sha now ns ruleId tev idx nid actions).countP
        (fun r => decide (r.ns = ns ∧ r.rule_id = ruleId ∧ r.action_index = i)) = 0 := by
  intro actions
  induction actions with
  | nil => intro idx nid _; rfl
  | cons a rest ih =>
    intro idx nid hi
    have hrest := ih (idx + 1) (nid + 1) (by omega)
    have hne : idx ≠ i := by omega
    cases hpf : f.pendingInsertFails idx <;>
      [skip; skip] <;>
      (simp only [specRows, hpf, List.countP_cons, hrest]; simp [hne])

/-- The row-count of `specRows` for a fixed `(namespace, ruleId, actionIndex)`
inside the processed range is exactly one. -/
theorem specRows_countP_eq_one (f : DbFaults) (sha : String → String) (now ns ruleId : String)
    (tev : TriggerEvent) (i : Nat) :
    ∀ (actions : List Action) (idx nid : Nat), idx ≤ i → i < idx + actions.length →
      (specRows f sha now ns ruleId tev idx nid actions).countP
        (fun r => decide (r.ns = ns ∧ r.rule_id = ruleId ∧ r.action_index = i)) = 1 := by
  intro actions
  induction actions with
  | nil => intro idx nid h1 h2; simp at h2; omega
  | cons a rest ih =>
    intro idx nid h1 h2
    by_cases hidx : i = idx
    · subst hidx
      have hrest := specRows_countP_lt f sha now ns ruleId tev i rest (i + 1) (nid + 1)
        (by omega)
      cases hpf : f.pendingInsertFails i <;>
        [skip; skip] <;>
        (simp only [specRows, hpf, List.countP_cons, hrest]; simp)
    · have hrest := ih (idx + 1) (nid + 1) (by omega) (by simp at h2 ⊢; omega)
      have hne : idx ≠ i := fun h => hidx h.symm
      cases hpf : f.pendingInsertFails idx <;>
        [skip; skip] <;>
        (simp only [specRows, hpf, List.countP_cons, hrest]; simp [hne])

/-- The event-count of `specEvents` for a fixed `(ruleId, actionIndex)` with a
terminal status, below the loop start, is zero. -/
theorem specEvents_countP_lt (f : DbFaults) (now ns ruleId : String) (i : Nat) :
    ∀ (actions : List Action) (idx nid : Nat), i < idx →
      (specEvents f now ns ruleId idx nid actions).countP
        (fun e => decide (e.ruleId = ruleId ∧ e.actionIndex = i ∧
          (e.status = "completed" ∨ e.status = "failed"))) = 0 := by
  intro actions
  induction actions with
  | nil => intro idx nid _; rfl
  | cons a rest ih =>
    intro idx nid hi
    have hrest := ih (idx + 1) (nid + 1) (by omega)
    have hne : idx ≠ i := by omega
    cases hpf : f.pendingInsertFails idx <;>
      [skip; skip] <;>
      (simp only [specEvents, hpf, List.countP_cons, hrest]; simp [hne])

/-- Exactly one terminal-status `reaction.executed` event per processed action
index: the fault path emits `failed`, the normal path emits the adapter
status, which is always terminal. -/
theorem specEvents_countP_eq_one (f : DbFaults) (now ns ruleId : String) (i : Nat) :
    ∀ (actions : List Action) (idx nid : Nat), idx ≤ i → i < idx + actions.length →
      (specEvents f now ns ruleId idx nid actions).countP
        (fun e => decide (e.ruleId = ruleId ∧ e.actionIndex = i ∧
          (e.status = "completed" ∨ e.status = "failed"))) = 1 := by
  intro actions
  induction actions with
  | nil => intro idx nid h1 h2; simp at h2; omega
  | cons a rest ih =>
    intro idx nid h1 h2
    by_cases hidx : i = idx
    · subst hidx
      have hrest := specEvents_countP_lt f now ns ruleId i rest (i + 1) (nid + 1) (by omega)
      have hterm := executeAction_status_terminal now a
      cases hpf : f.pendingInsertFails i <;>
        [skip; skip] <;>
        (simp only [specEvents, hpf, List.countP_cons, hrest]; simp [hterm])
    · have hrest := ih (idx + 1) (nid + 1) (by omega) (by simp at h2 ⊢; omega)
      have hne : idx ≠ i := fun h => hidx h.symm
      cases hpf : f.pendingInsertFails idx <;>
        [skip; skip] <;>
        (simp only [specEvents, hpf, List.countP_cons, hrest]; simp [hne])

/-- With no database faults, the emitted statuses are exactly the adapter
statuses of the actions, in order. -/
theorem specEvents_noFaults_statuses (now ns ruleId : String) :
    ∀ (actions : List Action) (idx nid : Nat),
      (specEvents noFaults now ns ruleId idx nid actions).map (fun e => e.status)
        = actions.map (fun a => (executeAction now a).status) := by
  intro actions
  induction actions with
  | nil => intro idx nid; rfl
  | cons a rest ih =>
    intro idx nid
    have hpf : noFaults.pendingInsertFails idx = none := rfl
    simp only [specEvents, hpf, List.map_cons]
    rw [ih (idx + 1) (nid + 1)]

/-- With no database faults every action adapter is invoked, in index order. -/
theorem specInvoked_noFaults (actions : List Action) :
    ∀ idx : Nat, specInvoked noFaults idx actions = List.range' idx actions.length := by
  induction actions with
  | nil => intro idx; rfl
  | cons a rest ih =>
    intro idx
    have hpf : noFaults.pendingInsertFails idx = none := rfl
    simp only [specInvoked, hpf, List.length_cons, List.range'_succ]
    rw [ih (idx + 1)]
    rfl

/-- Redeliveries after a complete run are skipped entirely. -/
theorem deliverMatchN_skip (sha : String → String) (now : String) (ev : MatchEvent) :
    ∀ (n : Nat) (st : ReactionState),
      (∀ j, j < ev.actions.length →
        (findExecution st.table ev.ns
          (generateDedupeKey sha ev.ns ev.ruleId j ev.event)).isSome) →
      deliverMatchN sha now st ev n = .ok (st, []) := by
  intro n
  induction n with
  | zero => intro st _; rfl
  | succ m ih =>
    intro st hkeys
    have hrun : handleInterestMatch noFaults sha now st ev = .ok (st, [], []) :=
      runActions_skip noFaults sha now ev.ns ev.ruleId ev.event ev.actions 0 st
        (fun j _ hj => hkeys j (by simpa using hj))
    show (match handleInterestMatch noFaults sha now st ev with
      | Except.error e => Except.error e
      | Except.ok (st1, evs1, _) =>
        match deliverMatchN sha now st1 ev m with
        | Except.error e => Except.error e
        | Except.ok (st2, evs2) => Except.ok (st2, evs1 ++ evs2)) = _
    rw [hrun]
    simp only []
    rw [ih st hkeys]
    rfl

end ReactionNode

open ReactionNode in
/-- C1.  Reaction-executor idempotency: an existing Reaction Execution row
with the same `(namespace, dedupeKey)` makes the action loop skip that action
entirely (no adapter invocation, no new row, no completion event), and for a
triggering event redelivered N ≥ 1 times from a fresh table, at most one row
exists per `(namespace, ruleId, actionIndex)` and at most one terminal-status
`reaction.executed` event is emitted per action, provided the dedupe keys of
the actions do not collide (SHA-256 collision freedom). -/
theorem reaction_c1_idempotent (sha : String → String) (now : String) (ev : MatchEvent)
    (N : Nat) (hN : 1 ≤ N)
    (hdk : ∀ j k, j < ev.actions.length → k < ev.actions.length →
      generateDedupeKey sha ev.ns ev.ruleId j ev.event
        = generateDedupeKey sha ev.ns ev.ruleId k ev.event → j = k) :
    (∀ (f : DbFaults) (st : ReactionState) (ns ruleId : String) (idx : Nat) (a : Action)
        (tev : TriggerEvent) (r : ExecRow),
        findExecution st.table ns (generateDedupeKey sha ns ruleId idx tev) = some r →
        runAction f sha now st ns ruleId idx a tev = .ok (st, [], false)) ∧
    ∃ stF evsF, deliverMatchN sha now ⟨[], 0⟩ ev N = .ok (stF, evsF) ∧
      ∀ i, i < ev.actions.length →
        stF.table.countP
          (fun r => decide (r.ns = ev.ns ∧ r.rule_id = ev.ruleId ∧ r.action_index = i)) ≤ 1 ∧
        evsF.countP
          (fun e => decide (e.ruleId = ev.ruleId ∧ e.actionIndex = i ∧
            (e.status = "completed" ∨ e.status = "failed"))) ≤ 1 := by
  constructor
  · intro f st ns ruleId idx a tev r hr
    exact runAction_skip f sha now st ns ruleId idx a tev r hr
  · obtain ⟨m, rfl⟩ : ∃ m, N = m + 1 := ⟨N - 1, by omega⟩
    have hrun := runActions_run noFaults sha now ev.ns ev.ruleId ev.event
      (fun _ => rfl) ev.actions 0 ⟨[], 0⟩
      (fun j _ _ => rfl)
      (fun j k _ hj2 _ hk2 h => hdk j k (by simpa using hj2) (by simpa using hk2) h)
      (fun r hr => absurd hr (List.not_mem_nil r))
    have hhand : handleInterestMatch noFaults sha now ⟨[], 0⟩ ev
        = .ok (⟨specRows noFaults sha now ev.ns ev.ruleId ev.event 0 0 ev.actions,
               ev.actions.length⟩,
              specEvents noFaults now ev.ns ev.ruleId 0 0 ev.actions,
              specInvoked noFaults 0 ev.actions) := by
      have h0 : (⟨[], 0⟩ : ReactionState).table = [] := rfl
      simpa [handleInterestMatch] using hrun
    have hkeys : ∀ j, j < ev.actions.length →
        (findExecution (specRows noFaults sha now ev.ns ev.ruleId ev.event 0 0 ev.actions)
          ev.ns (generateDedupeKey sha ev.ns ev.ruleId j ev.event)).isSome := by
      intro j hj
      exact specRows_key_isSome noFaults sha now ev.ns ev.ruleId ev.event ev.actions 0 0 j
        (Nat.zero_le j) (by simpa using hj)
    have hskip := deliverMatchN_skip sha now ev m
      ⟨specRows noFaults sha now ev.ns ev.ruleId ev.event 0 0 ev.actions, ev.actions.length⟩
      hkeys
    have htotal : deliverMatchN sha now ⟨[], 0⟩ ev (m + 1)
        = .ok (⟨specRows noFaults sha now ev.ns ev.ruleId ev.event 0 0 ev.actions,
               ev.actions.length⟩,
              specEvents noFaults now ev.ns ev.ruleId 0 0 ev.actions) := by
      show (match handleInterestMatch noFaults sha now ⟨[], 0⟩ ev with
        | Except.error e => Except.error e
        | Except.ok (st1, evs1, _) =>
          match deliverMatchN sha now st1 ev m with
          | Except.error e => Except.error e
          | Except.ok (st2, evs2) => Except.ok (st2, evs1 ++ evs2)) = _
      rw [hhand]
      simp only []
      rw [hskip]
      simp
    refine ⟨_, _, htotal, ?_⟩
    intro i hi
    constructor
    · show (specRows noFaults sha now ev.ns ev.ruleId ev.event 0 0 ev.actions).countP _ ≤ 1
      rw [specRows_countP_eq_one noFaults sha now ev.ns ev.ruleId ev.event i ev.actions 0 0
        (Nat.zero_le i) (by simpa using hi)]
    · rw [specEvents_countP_eq_one noFaults now ev.ns ev.ruleId i ev.actions 0 0
        (Nat.zero_le i) (by simpa using hi)]

open ReactionNode in
/-- Witness for C1: identity sha, rule `r` with actions `[echo, bogus]`,
the same `interest.match` event delivered 3 times. -/
theorem reaction_c1_idempotent_witness :
    ∃ stF evsF,
      deliverMatchN (fun s => s) "0" ⟨[], 0⟩
        ⟨"n", "r", [⟨"echo", none, none⟩, ⟨"bogus", none, none⟩], ⟨"t", "p"⟩⟩ 3
        = .ok (stF, evsF) ∧
      ∀ i, i < (⟨"n", "r", [⟨"echo", none, none⟩, ⟨"bogus", none, none⟩],
          ⟨"t", "p"⟩⟩ : MatchEvent).actions.length →
        stF.table.countP
          (fun r => decide (r.ns = "n" ∧ r.rule_id = "r" ∧ r.action_index = i)) ≤ 1 ∧
        evsF.countP
          (fun e => decide (e.ruleId = "r" ∧ e.actionIndex = i ∧
            (e.status = "completed" ∨ e.status = "failed"))) ≤ 1 := by
  have h := reaction_c1_idempotent (fun s => s) "0"
    ⟨"n", "r", [⟨"echo", none, none⟩, ⟨"bogus", none, none⟩], ⟨"t", "p"⟩⟩ 3
    (by decide)
    (by
      intro j k hj hk hkey
      have hj2 : j < 2 := by simpa using hj
      have hk2 : k < 2 := by simpa using hk
      interval_cases j <;> interval_cases k <;> revert hkey <;> decide)
  exact h.2

open ReactionNode in
/-- C5.  Action-loop resilience: with a fresh table and collision-free dedupe
keys, every action in the list is executed in order (the invoked indices are
`range actions.length`), one `reaction.executed` event is emitted per action
whose status is exactly that action adapter result — so one action failing
never aborts nor affects the others — and an unknown action type yields a
failed result rather than throwing. -/
theorem reaction_c5_loop_resilience (sha : String → String) (now : String) (ev : MatchEvent)
    (hdk : ∀ j k, j < ev.actions.length → k < ev.actions.length →
      generateDedupeKey sha ev.ns ev.ruleId j ev.event
        = generateDedupeKey sha ev.ns ev.ruleId k ev.event → j = k) :
    handleInterestMatch noFaults sha now ⟨[], 0⟩ ev
      = .ok (⟨specRows noFaults sha now ev.ns ev.ruleId ev.event 0 0 ev.actions,
             ev.actions.length⟩,
            specEvents noFaults now ev.ns ev.ruleId 0 0 ev.actions,
            List.range ev.actions.length) ∧
    (specEvents noFaults now ev.ns ev.ruleId 0 0 ev.actions).map (fun e => e.status)
      = ev.actions.map (fun a => (executeAction now a).status) ∧
    (∀ a : Action, a.type ≠ "echo" → a.type ≠ "slack_notification" →
      a.type ≠ "emit_event" → a.type ≠ "create_ticket" →
      executeAction now a = ⟨"failed", none, some ("Unknown action type: " ++ a.type)⟩) := by
  refine ⟨?_, specEvents_noFaults_statuses now ev.ns ev.ruleId ev.actions 0 0,
    fun a h1 h2 h3 h4 => executeAction_unknown now a h1 h2 h3 h4⟩
  have hrun := runActions_run noFaults sha now ev.ns ev.ruleId ev.event
    (fun _ => rfl) ev.actions 0 ⟨[], 0⟩
    (fun j _ _ => rfl)
    (fun j k _ hj2 _ hk2 h => hdk j k (by simpa using hj2) (by simpa using hk2) h)
    (fun r hr => absurd hr (List.not_mem_nil r))
  have hinv : specInvoked noFaults 0 ev.actions = List.range ev.actions.length := by
    rw [specInvoked_noFaults ev.actions 0, List.range_eq_range']
  simpa [handleInterestMatch, hinv] using hrun

open ReactionNode in
/-- Witness for C5: action list `[A (unknown type, fails), B (echo, succeeds)]`;
both run, the two events have statuses `[failed, completed]` in that order. -/
theorem reaction_c5_loop_resilience_witness :
    (specEvents noFaults "0" "n" "r" 0 0
        [⟨"bogus", none, none⟩, ⟨"echo", none, none⟩]).map (fun e => e.status)
      = ["failed", "completed"] ∧
    handleInterestMatch noFaults (fun s => s) "0" ⟨[], 0⟩
        ⟨"n", "r", [⟨"bogus", none, none⟩, ⟨"echo", none, none⟩], ⟨"t", "p"⟩⟩
      = .ok (⟨[⟨"n", 0, "r", 0, "n|r|0|t|p", "failed", none, none⟩,
               ⟨"n", 1, "r", 1, "n|r|1|t|p", "completed", none, some "echo-0"⟩], 2⟩,
             [⟨"n", some 0, "r", 0, "failed", none, some "Unknown action type: bogus"⟩,
              ⟨"n", some 1, "r", 1, "completed", some "echo-0", none⟩],
             [0, 1]) := by
  have h := reaction_c5_loop_resilience (fun s => s) "0"
    ⟨"n", "r", [⟨"bogus", none, none⟩, ⟨"echo", none, none⟩], ⟨"t", "p"⟩⟩
    (by
      intro j k hj hk hkey
      have hj2 : j < 2 := by simpa using hj
      have hk2 : k < 2 := by simpa using hk
      interval_cases j <;> interval_cases k <;> revert hkey <;> decide)
  refine ⟨h.2.1.trans (by decide), ?_⟩
  rw [h.1]
  rfl

open ReactionNode in
/-- C7 counterexample: the pending-row insert fails (`pendingInsertFails`
always throws) yet the handler returns normally (`.ok`): the failure is
caught inside the action loop, recorded as a `failed` row, and a failed
completion event is emitted — it does not propagate to the Event Bus. -/
theorem reaction_c7_counterexample :
    handleInterestMatch ⟨fun _ => some "insert failed", fun _ => false⟩ (fun s => s) "0"
        ⟨[], 0⟩ ⟨"n", "r", [⟨"echo", none, none⟩], ⟨"t", "p"⟩⟩
      = .ok (⟨[⟨"n", 0, "r", 0, "n|r|0|t|p", "failed", some "insert failed", none⟩], 1⟩,
             [⟨"n", none, "r", 0, "failed", none, some "insert failed"⟩], []) := by
  rfl

open ReactionNode in
/-- C7 as amended.  A failure to persist the pending Reaction Execution row is
caught inside the action loop: the row is recorded as `failed` through the
`ON CONFLICT` upsert, a `reaction.executed{failed}` event is still emitted,
and the iteration returns normally; the failure propagates out of the handler
only when the catch-path write itself also fails. -/
theorem reaction_c7_amended (f : DbFaults) (sha : String → String) (now : String)
    (st : ReactionState) (ns ruleId : String) (idx : Nat) (a : Action) (tev : TriggerEvent)
    (msg : String)
    (hfind : findExecution st.table ns (generateDedupeKey sha ns ruleId idx tev) = none)
    (hpf : f.pendingInsertFails idx = some msg) :
    (f.catchWriteFails idx = false →
      runAction f sha now st ns ruleId idx a tev
        = .ok (⟨st.table ++ [⟨ns, st.nextId, ruleId, idx,
                generateDedupeKey sha ns ruleId idx tev, "failed", some msg, none⟩],
               st.nextId + 1⟩,
              [⟨ns, none, ruleId, idx, "failed", none, some msg⟩], false)) ∧
    (f.catchWriteFails idx = true →
      runAction f sha now st ns ruleId idx a tev = .error msg) :=
  ⟨fun hcw => runAction_fault f sha now st ns ruleId idx a tev msg hfind hpf hcw,
   fun hcw => runAction_catch_throw f sha now st ns ruleId idx a tev msg hfind hpf hcw⟩

open ReactionNode in
/-- Witness for the amended C7, at a concrete input for both conjuncts. -/
theorem reaction_c7_amended_witness :
    runAction ⟨fun _ => some "db down", fun _ => false⟩ (fun s => s) "0" ⟨[], 0⟩
        "n" "r" 0 ⟨"echo", none, none⟩ ⟨"t", "p"⟩
      = .ok (⟨[⟨"n", 0, "r", 0, "n|r|0|t|p", "failed", some "db down", none⟩], 1⟩,
             [⟨"n", none, "r", 0, "failed", none, some "db down"⟩], false) ∧
    runAction ⟨fun _ => some "db down", fun _ => true⟩ (fun s => s) "0" ⟨[], 0⟩
        "n" "r" 0 ⟨"echo", none, none⟩ ⟨"t", "p"⟩
      = .error "db down" := by
  constructor
  · have h := reaction_c7_amended ⟨fun _ => some "db down", fun _ => false⟩ (fun s => s) "0"
      ⟨[], 0⟩ "n" "r" 0 ⟨"echo", none, none⟩ ⟨"t", "p"⟩ "db down" rfl rfl
    exact h.1 rfl
  · have h := reaction_c7_amended ⟨fun _ => some "db down", fun _ => true⟩ (fun s => s) "0"
      ⟨[], 0⟩ "n" "r" 0 ⟨"echo", none, none⟩ ⟨"t", "p"⟩ "db down" rfl rfl
    exact h.2 rfl

namespace ProcessNode

/-- Appending to the history of the most-recent open incident neither changes
which instance is the most-recent open incident nor its key fields. -/
theorem findOpenIncident_appendEventTo (ns : String) (ev : PEventIn) :
    ∀ (rows : List ProcRow) (r : ProcRow), rows.find? (openIncident ns) = some r →
      (appendEventTo rows r.process_id ev).find? (openIncident ns)
        = some { r with events := r.events ++ [ev] } := by
  intro rows
  induction rows with
  | nil => intro r h; simp [List.find?] at h
  | cons q rest ih =>
    intro r h
    by_cases hq : openIncident ns q = true
    · rw [List.find?_cons_of_pos rest hq] at h
      injection h with h
      subst h
      simp only [appendEventTo, List.map_cons, if_true]
      rw [List.find?_cons_of_pos _
        (show openIncident ns { q with events := q.events ++ [ev] } = true from hq)]
    · rw [List.find?_cons_of_neg rest hq] at h
      simp only [appendEventTo, List.map_cons]
      by_cases hpid : q.process_id = r.process_id
      · rw [if_pos hpid,
          List.find?_cons_of_neg _ (show ¬openIncident ns { q with events := q.events ++ [ev] } = true from hq)]
        exact ih r h
      · rw [if_neg hpid, List.find?_cons_of_neg _ hq]
        exact ih r h

end ProcessNode

open ProcessNode in
/-- C6.  For a `reaction.executed` event with status `failed`: when an open
incident exists in the namespace, the most-recently-created one gets the
triggering event appended to its history and only `process.updated` is
emitted, with no new row; when none exists, a new `incident/open` instance
seeded with the event is inserted and `process.started` then
`incident.created` are emitted.  Any other status does nothing. -/
theorem process_c6_incident_merge (st : ProcState) (ev : PEventIn) :
    (ev.status = "failed" →
      (∀ r, findOpenIncident st.rows ev.ns = some r →
        handleReactionExecuted st ev
          = (⟨appendEventTo st.rows r.process_id ev, st.nextId⟩,
             [.processUpdated r.process_id "incident" "open"]) ∧
        findOpenIncident (appendEventTo st.rows r.process_id ev) ev.ns
          = some { r with events := r.events ++ [ev] } ∧
        (appendEventTo st.rows r.process_id ev).length = st.rows.length) ∧
      (findOpenIncident st.rows ev.ns = none →
        handleReactionExecuted st ev
          = (⟨⟨st.nextId, ev.ns, "incident", "open", some ev.ruleId, none, [ev]⟩ :: st.rows,
              st.nextId + 1⟩,
             [.processStarted st.nextId "incident" "open",
              .incidentCreated st.nextId ev.ruleId ev]))) ∧
    (ev.status ≠ "failed" → handleReactionExecuted st ev = (st, [])) := by
  constructor
  · intro hfail
    constructor
    · intro r hr
      refine ⟨?_, findOpenIncident_appendEventTo ev.ns ev st.rows r hr, ?_⟩
      · simp [handleReactionExecuted, hfail, createIncident, hr]
      · simp [appendEventTo]
    · intro hnone
      simp [handleReactionExecuted, hfail, createIncident, hnone]
  · intro hok
    simp [handleReactionExecuted, hok]

open ProcessNode in
/-- Witness for C6: the first failed reaction creates the incident and emits
`process.started` + `incident.created`; a second failed reaction before it
closes merges into the same instance and emits only `process.updated`. -/
theorem process_c6_incident_merge_witness :
    handleReactionExecuted ⟨[], 0⟩ ⟨"n", "reaction.executed", "r", "failed"⟩
      = (⟨[⟨0, "n", "incident", "open", some "r", none,
            [⟨"n", "reaction.executed", "r", "failed"⟩]⟩], 1⟩,
         [.processStarted 0 "incident" "open",
          .incidentCreated 0 "r" ⟨"n", "reaction.executed", "r", "failed"⟩]) ∧
    handleReactionExecuted
        ⟨[⟨0, "n", "incident", "open", some "r", none,
          [⟨"n", "reaction.executed", "r", "failed"⟩]⟩], 1⟩
        ⟨"n", "reaction.executed", "r", "failed"⟩
      = (⟨[⟨0, "n", "incident", "open", some "r", none,
            [⟨"n", "reaction.executed", "r", "failed"⟩,
             ⟨"n", "reaction.executed", "r", "failed"⟩]⟩], 1⟩,
         [.processUpdated 0 "incident" "open"]) ∧
    handleReactionExecuted ⟨[], 0⟩ ⟨"n", "reaction.executed", "r", "completed"⟩
      = (⟨[], 0⟩, []) := by
  refine ⟨?_, ?_, ?_⟩
  · exact ((process_c6_incident_merge ⟨[], 0⟩
      ⟨"n", "reaction.executed", "r", "failed"⟩).1 rfl).2 rfl
  · have h := ((process_c6_incident_merge
      ⟨[⟨0, "n", "incident", "open", some "r", none,
        [⟨"n", "reaction.executed", "r", "failed"⟩]⟩], 1⟩
      ⟨"n", "reaction.executed", "r", "failed"⟩).1 rfl).1
      ⟨0, "n", "incident", "open", some "r", none,
        [⟨"n", "reaction.executed", "r", "failed"⟩]⟩ rfl
    exact h.1.trans (by decide)
  · exact (process_c6_incident_merge ⟨[], 0⟩
      ⟨"n", "reaction.executed", "r", "completed"⟩).2 (by decide)

open ProcessNode in
/-- C10.  For an `interest.match` event with a derivable process type the
handler inserts a brand-new process instance without any lookup of existing
instances — the insert is the same whatever rows exist — and emits one
`process.started`; N deliveries create N distinct instances and N events, so
this path is not idempotent under at-least-once delivery. -/
theorem process_c10_no_dedupe (st : ProcState) (ev : PEventIn) (pt : String)
    (hpt : determineProcessType ev.eventType = some pt) :
    handleInterestMatch st ev
      = (⟨⟨st.nextId, ev.ns, pt, "started", none, some ev.eventType, [ev]⟩ :: st.rows,
          st.nextId + 1⟩,
         [.processStarted st.nextId pt "started"]) ∧
    ∀ N, (deliverProcessN st ev N).1.rows.length = st.rows.length + N ∧
         (deliverProcessN st ev N).2.length = N := by
  have hstep : ∀ s : ProcState, handleInterestMatch s ev
      = (⟨⟨s.nextId, ev.ns, pt, "started", none, some ev.eventType, [ev]⟩ :: s.rows,
          s.nextId + 1⟩,
         [.processStarted s.nextId pt "started"]) := by
    intro s
    simp [handleInterestMatch, hpt, createOrUpdateProcess]
  refine ⟨hstep st, ?_⟩
  have aux : ∀ (N : Nat) (s : ProcState),
      (deliverProcessN s ev N).1.rows.length = s.rows.length + N ∧
      (deliverProcessN s ev N).2.length = N := by
    intro N
    induction N with
    | zero => intro s; exact ⟨rfl, rfl⟩
    | succ m ihm =>
      intro s
      have h1 := ihm (handleInterestMatch s ev).1
      constructor
      · show (deliverProcessN (handleInterestMatch s ev).1 ev m).1.rows.length = _
        rw [h1.1, hstep s]
        simp
        omega
      · show ((handleInterestMatch s ev).2 ++ (deliverProcessN (handleInterestMatch s ev).1 ev m).2).length = m + 1
        rw [List.length_append, h1.2, hstep s]
        simp
        omega
  intro N
  exact aux N st

open ProcessNode in
/-- Witness for C10: a concrete `interest.match` event, three deliveries, three
process instances. -/
theorem process_c10_no_dedupe_witness :
    handleInterestMatch ⟨[], 0⟩ ⟨"n", "interest.match", "r", "x"⟩
      = (⟨[⟨0, "n", "monitoring", "started", none, some "interest.match",
            [⟨"n", "interest.match", "r", "x"⟩]⟩], 1⟩,
         [.processStarted 0 "monitoring" "started"]) ∧
    (deliverProcessN ⟨[], 0⟩ ⟨"n", "interest.match", "r", "x"⟩ 3).1.rows.length = 3 ∧
    (deliverProcessN ⟨[], 0⟩ ⟨"n", "interest.match", "r", "x"⟩ 3).2.length = 3 := by
  have h := process_c10_no_dedupe ⟨[], 0⟩ ⟨"n", "interest.match", "r", "x"⟩ "monitoring"
    (by decide)
  exact ⟨h.1, by simpa using (h.2 3).1, (h.2 3).2⟩

namespace PipelineLoader

theorem checkNodes_ok_iff :
    ∀ l : List RawNode, checkNodes l = .ok () ↔
      ∀ n ∈ l, isTruthyStr n.id ∧ isTruthyStr n.type ∧ n.listensTo.isSome := by
  intro l
  induction l with
  | nil => simp [checkNodes]
  | cons n rest ih =>
    by_cases h1 : isTruthyStr n.id
    · by_cases h2 : isTruthyStr n.type
      · by_cases h3 : n.listensTo.isNone
        · have h3s : n.listensTo.isSome = false := by
            cases hl : n.listensTo <;> simp_all
          simp [checkNodes, h1, h2, h3, h3s]
        · have h3s : n.listensTo.isSome = true := by
            cases hl : n.listensTo <;> simp_all
          simp [checkNodes, h1, h2, h3, h3s, ih]
      · simp only [Bool.not_eq_true] at h2
        simp [checkNodes, h1, h2]
    · simp only [Bool.not_eq_true] at h1
      simp [checkNodes, h1]

theorem loadChecks_ok_iff (c : RawConfig) :
    loadChecks c = .ok () ↔
      isTruthyStr c.name ∧ isTruthyStr c.ns ∧ c.nodes.isSome ∧
      ∀ n ∈ c.nodes.getD [], isTruthyStr n.id ∧ isTruthyStr n.type ∧ n.listensTo.isSome := by
  by_cases h1 : isTruthyStr c.name
  · by_cases h2 : isTruthyStr c.ns
    · by_cases h3 : c.nodes.isNone
      · have h3s : c.nodes.isSome = false := by
          cases hl : c.nodes <;> simp_all
        simp [loadChecks, h1, h2, h3, h3s]
      · have h3s : c.nodes.isSome = true := by
          cases hl : c.nodes <;> simp_all
        simp [loadChecks, h1, h2, h3, h3s, checkNodes_ok_iff]
    · simp only [Bool.not_eq_true] at h2
      simp [loadChecks, h1, h2]
  · simp only [Bool.not_eq_true] at h1
    simp [loadChecks, h1]

theorem checkDupIds_ok_iff :
    ∀ (l : List RawNode) (seen : List String),
      checkDupIds seen l = .ok () ↔
        ((l.map fun n => n.id.getD "").Nodup ∧
         ∀ x ∈ l.map (fun n => n.id.getD ""), x ∉ seen) := by
  intro l
  induction l with
  | nil => intro seen; simp [checkDupIds]
  | cons n rest ih =>
    intro seen
    by_cases h : seen.contains (n.id.getD "")
    · have hmem : n.id.getD "" ∈ seen := by
        simpa [List.contains] using h
      simp [checkDupIds, h, hmem]
    · have hmem : n.id.getD "" ∉ seen := by
        simpa [List.contains] using h
      simp only [Bool.not_eq_true] at h
      rw [show checkDupIds seen (n :: rest) = checkDupIds (n.id.getD "" :: seen) rest from by
        simp [checkDupIds, h, hmem]]
      rw [ih (n.id.getD "" :: seen)]
      simp only [List.map_cons]
      constructor
      · rintro ⟨hnd, hni⟩
        refine ⟨List.nodup_cons.2 ⟨?_, hnd⟩, ?_⟩
        · intro hx
          exact (hni _ hx) (List.mem_cons_self _ _)
        · intro x hx
          rcases List.mem_cons.1 hx with rfl | hx
          · exact hmem
          · intro hs
            exact (hni x hx) (List.mem_cons_of_mem _ hs)
      · rintro ⟨hnd, hni⟩
        have hnd2 := List.nodup_cons.1 hnd
        refine ⟨hnd2.2, ?_⟩
        intro x hx hs
        rcases List.mem_cons.1 hs with rfl | hs
        · exact hnd2.1 hx
        · exact (hni x (List.mem_cons_of_mem _ hx)) hs

theorem checkTypes_ok_iff :
    ∀ l : List RawNode, checkTypes l = .ok () ↔ ∀ n ∈ l, n.type.getD "" ∈ validTypes := by
  intro l
  induction l with
  | nil => simp [checkTypes]
  | cons n rest ih =>
    by_cases h : validTypes.contains (n.type.getD "")
    · have hmem : n.type.getD "" ∈ validTypes := by
        simpa [List.contains] using h
      simp [checkTypes, h, hmem, ih]
    · have hmem : n.type.getD "" ∉ validTypes := by
        simpa [List.contains] using h
      simp only [Bool.not_eq_true] at h
      simp [checkTypes, h, hmem]

theorem validatePipelineConfig_ok_iff (c : RawConfig) :
    validatePipelineConfig c = .ok () ↔
      ((c.nodes.getD []).map fun n => n.id.getD "").Nodup ∧
      ∀ n ∈ c.nodes.getD [], n.type.getD "" ∈ validTypes := by
  unfold validatePipelineConfig
  cases hdup : checkDupIds [] (c.nodes.getD []) with
  | error e =>
    have := (checkDupIds_ok_iff (c.nodes.getD []) []).symm
    rw [hdup] at this
    simp only []
    constructor
    · intro hc; cases hc
    · intro hc
      exact absurd (this.1 ⟨hc.1, by simp⟩) (by simp)
  | ok u =>
    cases u
    have hnd := (checkDupIds_ok_iff (c.nodes.getD []) []).1 hdup
    simp only []
    rw [checkTypes_ok_iff]
    constructor
    · intro h; exact ⟨hnd.1, h⟩
    · intro h; exact h.2

end PipelineLoader

open PipelineLoader in
/-- C8 counterexample: a configuration with an **empty** `nodes` array is
accepted by both `loadPipelineConfig`'s checks and `validatePipelineConfig`,
contradicting the claim that an empty nodes array is rejected. -/
theorem config_c8_counterexample :
    loadAndValidate ⟨some "p", some "ns", some []⟩ = .ok () := rfl

open PipelineLoader in
/-- C8 as amended.  Configuration validation (load checks then
`validatePipelineConfig`, both run before the executor is constructed)
accepts a config exactly when: `name` and `namespace` are present and
nonempty, `nodes` is an array (an **empty** array is accepted), every node
has truthy `id` and `type` and a `listensTo` array, node ids are unique, and
every node type is one of the six enumerated values. -/
theorem config_c8_amended (c : RawConfig) :
    loadAndValidate c = .ok () ↔
      (isTruthyStr c.name ∧ isTruthyStr c.ns ∧ c.nodes.isSome ∧
       (∀ n ∈ c.nodes.getD [], isTruthyStr n.id ∧ isTruthyStr n.type ∧ n.listensTo.isSome) ∧
       ((c.nodes.getD []).map fun n => n.id.getD "").Nodup ∧
       (∀ n ∈ c.nodes.getD [], n.type.getD "" ∈ validTypes)) := by
  unfold loadAndValidate
  cases hload : loadChecks c with
  | error e =>
    have hiff := (loadChecks_ok_iff c).symm
    rw [hload] at hiff
    simp only []
    constructor
    · intro hc; cases hc
    · intro hc
      exact absurd (hiff.1 ⟨hc.1, hc.2.1, hc.2.2.1, hc.2.2.2.1⟩) (by simp)
  | ok u =>
    cases u
    have hl := (loadChecks_ok_iff c).1 hload
    simp only []
    rw [validatePipelineConfig_ok_iff]
    constructor
    · intro h
      exact ⟨hl.1, hl.2.1, hl.2.2.1, hl.2.2.2, h.1, h.2⟩
    · intro h
      exact ⟨h.2.2.2.2.1, h.2.2.2.2.2⟩

open PipelineLoader in
/-- Witness for the amended C8: a valid one-node config is accepted; a config
with two nodes sharing `id="x"` is rejected. -/
theorem config_c8_amended_witness :
    loadAndValidate ⟨some "p", some "ns", some [⟨some "a", some "connector", some []⟩]⟩
      = .ok () ∧
    ¬ (loadAndValidate ⟨some "p", some "ns",
        some [⟨some "x", some "connector", some []⟩,
              ⟨some "x", some "process", some []⟩]⟩ = .ok ()) := by
  constructor
  · exact (config_c8_amended _).mpr (by decide)
  · intro h
    have h2 := (config_c8_amended _).mp h
    revert h2
    decide

end Reflex
